import Mathlib

/-!
Verification of the yaml-grep repository (yaml-grep.py and yaml-show.py):
a shallow embedding of the tree model, path codec, search engine, resolver
and match highlighter, together with theorems settling the specification
claims.  Python strings are modelled as `List Char`; Python dictionaries
are modelled as insertion-ordered association lists with string keys
(the spec's data model: mapping keys are strings).
-/

namespace YamlGrep

/-- Scalar leaves of the document tree: string, integer, boolean, null.
(The float scalar kind is not modelled; no claim depends on float values.) -/
inductive Scalar : Type where
  | str (s : List Char)
  | int (n : Int)
  | bool (b : Bool)
  | null
deriving DecidableEq

/-- The in-memory parsed document: scalars, sequences (Python lists) and
mappings (Python dicts, insertion-ordered, string keys). -/
inductive Tree : Type where
  | scalar (v : Scalar)
  | seq (xs : List Tree)
  | map (kvs : List (List Char × Tree))

/-- A path token: a mapping key (string) or a sequence index (from
`enumerate`, hence a natural number). -/
inductive Tok : Type where
  | str (s : List Char)
  | idx (n : Nat)
deriving DecidableEq

/-- Python `s.replace(p, rep)` for a one-character pattern `p`:
replace every occurrence of `p` by `rep`, scanning left to right. -/
def pyReplace1 (p : Char) (rep : List Char) : List Char → List Char
  | [] => []
  | c :: rest =>
    if c = p then rep ++ pyReplace1 p rep rest
    else c :: pyReplace1 p rep rest

/-- Python `s.replace(pq, rep)` for a two-character pattern `p q`:
replace every non-overlapping occurrence left to right, consuming both
pattern characters on a match. -/
def pyReplace2 (p q : Char) (rep : List Char) : List Char → List Char
  | [] => []
  | [c] => [c]
  | c :: d :: rest =>
    if c = p ∧ d = q then rep ++ pyReplace2 p q rep rest
    else c :: pyReplace2 p q rep (d :: rest)

/-- yaml-grep.py `json_pointer_escape`: RFC 6901 escape,
`token.replace("~", "~0").replace("/", "~1")`. -/
def json_pointer_escape (token : List Char) : List Char :=
  pyReplace1 '/' "~1".toList (pyReplace1 '~' "~0".toList token)

/-- yaml-show.py `unescape_token`:
`tok.replace("~1", "/").replace("~0", "~")`. -/
def unescape_token (tok : List Char) : List Char :=
  pyReplace2 '~' '0' "~".toList (pyReplace2 '~' '1' "/".toList tok)

/-- Python `sep.join(parts)` for a one-character separator. -/
def pyJoin (sep : Char) : List (List Char) → List Char
  | [] => []
  | [a] => a
  | a :: rest => a ++ sep :: pyJoin sep rest

/-- Accumulator loop of `pySplit`. -/
def pySplitAux (sep : Char) : List Char → List Char → List (List Char)
  | [], acc => [acc.reverse]
  | c :: rest, acc =>
    if c = sep then acc.reverse :: pySplitAux sep rest []
    else pySplitAux sep rest (c :: acc)

/-- Python `s.split(sep)` for a one-character separator: e.g.
splitting "a//b" on '/' gives ["a", "", "b"], and splitting "" gives [""]. -/
def pySplit (sep : Char) (s : List Char) : List (List Char) :=
  pySplitAux sep s []

/-- Python `str(n)` for a natural number: decimal digits. -/
def natDec (n : Nat) : List Char :=
  if n < 10 then [Char.ofNat (48 + n)]
  else natDec (n / 10) ++ [Char.ofNat (48 + n % 10)]

/-- Python `str(n)` for an integer. -/
def intDec (n : Int) : List Char :=
  if n < 0 then '-' :: natDec n.natAbs else natDec n.toNat

/-- One token of the pointer encoding loop in yaml-grep.py
`to_path_pointer`: integer tokens are rendered as decimal digits,
string tokens are RFC 6901 escaped. -/
def tokEnc : Tok → List Char
  | .idx n => natDec n
  | .str s => json_pointer_escape s

/-- yaml-grep.py `to_path_pointer`: `"/" + "/".join(parts)`. -/
def to_path_pointer (tokens : List Tok) : List Char :=
  '/' :: pyJoin '/' (tokens.map tokEnc)

/-- yaml-show.py `parse_pointer`: "" and "/" denote the root; anything
else must start with '/' (else the tool exits with an error, modelled as
`none`); the remainder is split on '/', empty segments are removed by the
comprehension's filter, and each kept segment is unescaped. -/
def parse_pointer (ptr : List Char) : Option (List (List Char)) :=
  if ptr = [] ∨ ptr = "/".toList then some []
  else
    match ptr with
    | '/' :: raw =>
      some (((pySplit '/' raw).filter (fun p => p ≠ [])).map unescape_token)
    | _ => none

/- ### Basic lemmas about the string codec -/

theorem pyReplace1_cons (p : Char) (rep : List Char) (c : Char)
    (rest : List Char) :
    pyReplace1 p rep (c :: rest) =
      if c = p then rep ++ pyReplace1 p rep rest
      else c :: pyReplace1 p rep rest := rfl

theorem pyReplace2_cons2 (p q : Char) (rep : List Char) (c d : Char)
    (rest : List Char) :
    pyReplace2 p q rep (c :: d :: rest) =
      if c = p ∧ d = q then rep ++ pyReplace2 p q rep rest
      else c :: pyReplace2 p q rep (d :: rest) := rfl

theorem pyReplace2_cons_ne {p q : Char} {rep : List Char} {c : Char}
    {s : List Char} (h : c ≠ p) :
    pyReplace2 p q rep (c :: s) = c :: pyReplace2 p q rep s := by
  cases s with
  | nil => rfl
  | cons d rest =>
    rw [pyReplace2_cons2, if_neg]
    intro hc
    exact h hc.1

theorem pyReplace2_not_mem {p q : Char} {rep : List Char} :
    ∀ {s : List Char}, p ∉ s → pyReplace2 p q rep s = s := by
  intro s
  induction s with
  | nil => intro _; rfl
  | cons c rest ih =>
    intro h
    have hc : c ≠ p := fun hcp => h (hcp ▸ List.mem_cons_self c rest)
    rw [pyReplace2_cons_ne hc, ih (fun hm => h (List.mem_cons_of_mem c hm))]

theorem pyReplace2_ne_nil {p q : Char} {rep : List Char}
    (hrep : rep ≠ []) :
    ∀ {s : List Char}, s ≠ [] → pyReplace2 p q rep s ≠ [] := by
  intro s
  induction s with
  | nil => intro h; exact absurd rfl h
  | cons c rest _ =>
    intro _
    cases rest with
    | nil => simp [pyReplace2]
    | cons d rest2 =>
      rw [pyReplace2_cons2]
      split
      · simp [hrep]
      · simp

/-- Fold of a character-to-string function over a string; used to state
per-character characterisations of the Python replaces. -/
def chMap (f : Char → List Char) : List Char → List Char
  | [] => []
  | c :: t => f c ++ chMap f t

theorem chMap_append (f : Char → List Char) (a b : List Char) :
    chMap f (a ++ b) = chMap f a ++ chMap f b := by
  induction a with
  | nil => rfl
  | cons c rest ih =>
    show chMap f (c :: (rest ++ b)) = _
    rw [chMap, ih, chMap, List.append_assoc]

theorem pyReplace1_eq_chMap (p : Char) (rep : List Char) :
    ∀ t : List Char,
      pyReplace1 p rep t = chMap (fun c => if c = p then rep else [c]) t := by
  intro t
  induction t with
  | nil => rfl
  | cons c rest ih =>
    rw [pyReplace1_cons, chMap]
    split
    · rw [ih]
    · rw [ih]; rfl

theorem chMap_chMap (f g : Char → List Char) :
    ∀ t : List Char, chMap g (chMap f t) = chMap (fun c => chMap g (f c)) t := by
  intro t
  induction t with
  | nil => rfl
  | cons c rest ih =>
    rw [chMap, chMap_append, ih, chMap]

/-- The per-character view of the RFC 6901 escape. -/
def encChar (c : Char) : List Char :=
  if c = '~' then "~0".toList else if c = '/' then "~1".toList else [c]

theorem escape_eq_chMap (t : List Char) :
    json_pointer_escape t = chMap encChar t := by
  unfold json_pointer_escape
  rw [pyReplace1_eq_chMap, pyReplace1_eq_chMap, chMap_chMap]
  induction t with
  | nil => rfl
  | cons c rest ih =>
    rw [chMap, chMap, ih]
    congr 1
    by_cases h1 : c = '~'
    · subst h1; decide
    · by_cases h2 : c = '/'
      · subst h2; decide
      · simp [encChar, h1, h2, chMap]

theorem escape_cons (c : Char) (t : List Char) :
    json_pointer_escape (c :: t) = encChar c ++ json_pointer_escape t := by
  rw [escape_eq_chMap, escape_eq_chMap]
  rfl

theorem escape_no_slash : ∀ t : List Char, '/' ∉ json_pointer_escape t := by
  intro t
  induction t with
  | nil => simp [json_pointer_escape, pyReplace1]
  | cons c rest ih =>
    rw [escape_cons]
    intro hmem
    rcases List.mem_append.1 hmem with h | h
    · unfold encChar at h
      split at h
      · simp at h
      · split at h
        · simp at h
        · rename_i h2
          simp at h
          exact h2 h.symm
    · exact ih h

theorem escape_ne_nil {t : List Char} (h : t ≠ []) :
    json_pointer_escape t ≠ [] := by
  cases t with
  | nil => exact absurd rfl h
  | cons c rest =>
    rw [escape_cons]
    unfold encChar
    split
    · simp
    · split <;> simp

/-- Intermediate stage of unescaping: '/' already restored, '~' still
encoded as "~0". -/
def midChar (c : Char) : List Char :=
  if c = '~' then "~0".toList else [c]

theorem unesc1_escape :
    ∀ t : List Char,
      pyReplace2 '~' '1' "/".toList (json_pointer_escape t) =
        chMap midChar t := by
  intro t
  induction t with
  | nil => rfl
  | cons c rest ih =>
    rw [escape_cons, chMap]
    by_cases h1 : c = '~'
    · subst h1
      have he : encChar '~' = ['~', '0'] := by decide
      rw [he]
      show pyReplace2 '~' '1' "/".toList
        ('~' :: '0' :: json_pointer_escape rest) = _
      rw [pyReplace2_cons2, if_neg (by decide), pyReplace2_cons_ne (by decide),
        ih]
      have hm : midChar '~' = ['~', '0'] := by decide
      rw [hm]
      rfl
    · by_cases h2 : c = '/'
      · subst h2
        have he : encChar '/' = ['~', '1'] := by decide
        rw [he]
        show pyReplace2 '~' '1' "/".toList
          ('~' :: '1' :: json_pointer_escape rest) = _
        rw [pyReplace2_cons2, if_pos ⟨rfl, rfl⟩, ih]
        have : midChar '/' = ['/'] := by decide
        rw [this]
        rfl
      · have he : encChar c = [c] := by simp [encChar, h1, h2]
        rw [he]
        show pyReplace2 '~' '1' "/".toList (c :: json_pointer_escape rest) = _
        rw [pyReplace2_cons_ne h1, ih]
        have : midChar c = [c] := by simp [midChar, h1]
        rw [this]
        rfl

theorem unesc2_mid :
    ∀ t : List Char, pyReplace2 '~' '0' "~".toList (chMap midChar t) = t := by
  intro t
  induction t with
  | nil => rfl
  | cons c rest ih =>
    rw [chMap]
    by_cases h1 : c = '~'
    · subst h1
      have he : midChar '~' = ['~', '0'] := by decide
      rw [he]
      show pyReplace2 '~' '0' "~".toList ('~' :: '0' :: chMap midChar rest) = _
      rw [pyReplace2_cons2, if_pos ⟨rfl, rfl⟩, ih]
      rfl
    · have he : midChar c = [c] := by simp [midChar, h1]
      rw [he]
      show pyReplace2 '~' '0' "~".toList (c :: chMap midChar rest) = _
      rw [pyReplace2_cons_ne h1, ih]

theorem unescape_escape (t : List Char) :
    unescape_token (json_pointer_escape t) = t := by
  unfold unescape_token
  rw [unesc1_escape, unesc2_mid]

theorem unescape_not_mem_tilde {s : List Char} (h : '~' ∉ s) :
    unescape_token s = s := by
  unfold unescape_token
  rw [pyReplace2_not_mem h, pyReplace2_not_mem h]

theorem unescape_ne_nil {s : List Char} (h : s ≠ []) :
    unescape_token s ≠ [] := by
  unfold unescape_token
  exact pyReplace2_ne_nil (by decide) (pyReplace2_ne_nil (by decide) h)

/-- C4: pointer-encoding a string token (replacing '~' with "~0" then '/'
with "~1") and then pointer-decoding it (replacing "~1" with '/' then "~0"
with '~') yields the original token unchanged, for every token; in
particular "a/b" encodes to "a~1b" and "a~b" to "a~0b", and both decode
back. -/
theorem c4_escape_roundtrip :
    (∀ token : List Char, unescape_token (json_pointer_escape token) = token)
    ∧ json_pointer_escape "a/b".toList = "a~1b".toList
    ∧ json_pointer_escape "a~b".toList = "a~0b".toList
    ∧ unescape_token "a~1b".toList = "a/b".toList
    ∧ unescape_token "a~0b".toList = "a~b".toList := by
  refine ⟨unescape_escape, ?_, ?_, ?_, ?_⟩ <;> decide

/-- C3 counterexample: the decoder drops interior empty segments too:
"/a//b" parses to ["a", "b"], not to ["a", "", "b"]. -/
theorem c3_interior_empty_counterexample :
    parse_pointer "/a//b".toList = some ["a".toList, "b".toList]
    ∧ some ["a".toList, "b".toList]
      ≠ some ["a".toList, ([] : List Char), "b".toList] := by
  constructor <;> decide

/-- C3 (amended): pointer decoding splits on '/' and drops every empty
segment, wherever it occurs — leading, trailing, or interior; hence no
token of a successful parse is the empty string. -/
theorem c3_empty_segments_amended :
    parse_pointer "/a//b".toList = some ["a".toList, "b".toList]
    ∧ ∀ (ptr : List Char) (toks : List (List Char)),
        parse_pointer ptr = some toks → ∀ t ∈ toks, t ≠ [] := by
  refine ⟨by decide, ?_⟩
  intro ptr toks hparse t ht
  unfold parse_pointer at hparse
  split at hparse
  · simp only [Option.some.injEq] at hparse
    subst hparse
    simp at ht
  · split at hparse
    · simp only [Option.some.injEq] at hparse
      subst hparse
      rcases List.mem_map.1 ht with ⟨p, hp, hup⟩
      have hpne : p ≠ [] := by
        have := List.of_mem_filter hp
        simpa using this
      exact hup ▸ unescape_ne_nil hpne
    · exact Option.noConfusion hparse

/-- Witness for C3: a concrete successful parse whose tokens the amended
theorem proves nonempty. -/
theorem c3_empty_segments_amended_witness :
    "x".toList ≠ [] :=
  c3_empty_segments_amended.2 "/x".toList ["x".toList] (by decide)
    "x".toList (by decide)

/-- C10: pointer parsing accepts exactly the root forms "" and "/" and
strings beginning with '/'; every non-empty pointer that does not start
with '/' is rejected with an error (modelled as `none`) before any
resolution. -/
theorem c10_pointer_prefix :
    parse_pointer [] = some []
    ∧ parse_pointer "/".toList = some []
    ∧ (∀ ptr : List Char, ptr ≠ [] → ptr.head? ≠ some '/' →
        parse_pointer ptr = none)
    ∧ (∀ (ptr : List Char) (toks : List (List Char)),
        parse_pointer ptr = some toks → ptr = [] ∨ ptr.head? = some '/') := by
  refine ⟨by decide, by decide, ?_, ?_⟩
  · intro ptr hne hhead
    cases ptr with
    | nil => exact absurd rfl hne
    | cons c rest =>
      have hc : c ≠ '/' := by
        intro h
        exact hhead (by rw [h]; rfl)
      unfold parse_pointer
      rw [if_neg]
      · split
        · rename_i raw heq
          injection heq with h1 _
          exact absurd h1 hc
        · rfl
      · push_neg
        constructor
        · exact hne
        · intro hptr
          have : c = '/' := by
            have := congrArg List.head? hptr
            simpa using this
          exact hc this
  · intro ptr toks hparse
    by_cases hroot : ptr = [] ∨ ptr = "/".toList
    · rcases hroot with h | h
      · exact Or.inl h
      · exact Or.inr (by rw [h]; rfl)
    · unfold parse_pointer at hparse
      rw [if_neg hroot] at hparse
      cases ptr with
      | nil => exact Or.inl rfl
      | cons c rest =>
        right
        split at hparse
        · rename_i raw heq
          injection heq with h1 _
          rw [h1]
          rfl
        · exact Option.noConfusion hparse

/-- Witness for C10: the concrete relative pointer "a" is rejected. -/
theorem c10_pointer_prefix_witness :
    parse_pointer "a".toList = none :=
  c10_pointer_prefix.2.2.1 "a".toList (by decide) (by decide)

/- ### Python int() parsing (ASCII subset) -/

/-- ASCII decimal digit test (the characters Python `int` accepts as
base-10 digits, restricted to ASCII). -/
def isDig (c : Char) : Bool := decide (48 ≤ c.toNat ∧ c.toNat ≤ 57)

/-- ASCII whitespace stripped by Python `int` (space, tab, newline,
carriage return, vertical tab, form feed). -/
def isPySpace (c : Char) : Bool :=
  decide (c = ' ' ∨ c = '\t' ∨ c = '\n' ∨ c = '\r'
    ∨ c = Char.ofNat 11 ∨ c = Char.ofNat 12)

/-- Python `str.strip()` as applied by `int` to its argument. -/
def stripWS (s : List Char) : List Char :=
  ((s.dropWhile isPySpace).reverse.dropWhile isPySpace).reverse

/-- Validity of a Python integer-literal digit run: non-empty digits,
with single underscores allowed only between digits. -/
def digitsOK : List Char → Bool
  | [] => false
  | [c] => isDig c
  | c :: d :: rest =>
    isDig c && (if d = '_' then digitsOK rest else digitsOK (d :: rest))

/-- Numeric value of a digit string (underscores already removed). -/
def decVal (s : List Char) : Nat :=
  s.foldl (fun a c => a * 10 + (c.toNat - 48)) 0

/-- Value of a Python digit run, `none` if invalid. -/
def parseDigitsU (ds : List Char) : Option Nat :=
  if digitsOK ds then some (decVal (ds.filter (fun c => c ≠ '_'))) else none

/-- Python `int(tok)` on a string (ASCII subset): strip whitespace,
optional single sign, then a valid digit run; `none` models the
`ValueError` the resolver catches. -/
def py_int_parse (s : List Char) : Option Int :=
  match stripWS s with
  | [] => none
  | c :: ds =>
    if c = '-' then
      match parseDigitsU ds with
      | none => none
      | some n => some (-(n : Int))
    else if c = '+' then
      match parseDigitsU ds with
      | none => none
      | some n => some ((n : Int))
    else
      match parseDigitsU (c :: ds) with
      | none => none
      | some n => some ((n : Int))

theorem digit_toNat {k : Nat} (hk : k < 10) :
    (Char.ofNat (48 + k)).toNat = 48 + k := by
  interval_cases k <;> decide

theorem natDec_ne_nil (n : Nat) : natDec n ≠ [] := by
  rw [natDec]
  split
  · simp
  · simp

theorem natDec_bounds :
    ∀ n : Nat, ∀ c ∈ natDec n, 48 ≤ c.toNat ∧ c.toNat ≤ 57 := by
  intro n
  induction n using Nat.strong_induction_on with
  | _ n ih =>
    rw [natDec]
    split
    · rename_i h
      intro c hc
      simp only [List.mem_singleton] at hc
      subst hc
      rw [digit_toNat h]
      omega
    · rename_i h
      intro c hc
      rcases List.mem_append.1 hc with hm | hm
      · exact ih (n / 10) (Nat.div_lt_self (by omega) (by omega)) c hm
      · simp only [List.mem_singleton] at hm
        subst hm
        have hlt : n % 10 < 10 := Nat.mod_lt _ (by omega)
        rw [digit_toNat hlt]
        omega

theorem decVal_natDec : ∀ n : Nat, decVal (natDec n) = n := by
  intro n
  induction n using Nat.strong_induction_on with
  | _ n ih =>
    rw [natDec]
    split
    · rename_i h
      unfold decVal
      simp only [List.foldl_cons, List.foldl_nil]
      rw [digit_toNat h]
      omega
    · rename_i h
      unfold decVal
      rw [List.foldl_append]
      have hrec := ih (n / 10) (Nat.div_lt_self (by omega) (by omega))
      unfold decVal at hrec
      rw [hrec]
      simp only [List.foldl_cons, List.foldl_nil]
      have hlt : n % 10 < 10 := Nat.mod_lt _ (by omega)
      rw [digit_toNat hlt]
      omega

theorem isPySpace_false_of_digit {c : Char} (h48 : 48 ≤ c.toNat)
    (h57 : c.toNat ≤ 57) : isPySpace c = false := by
  apply decide_eq_false
  rintro (h | h | h | h | h | h) <;>
    (subst h; revert h48 h57; decide)

theorem stripWS_eq_self {s : List Char}
    (h : ∀ c ∈ s, isPySpace c = false) : stripWS s = s := by
  unfold stripWS
  have h1 : s.dropWhile isPySpace = s := by
    cases s with
    | nil => rfl
    | cons c rest =>
      rw [List.dropWhile_cons, if_neg (by simp [h c (List.mem_cons_self c rest)])]
  rw [h1]
  have h2 : s.reverse.dropWhile isPySpace = s.reverse := by
    cases hr : s.reverse with
    | nil => rfl
    | cons c rest =>
      have hc : c ∈ s := by
        rw [← List.mem_reverse, hr]
        exact List.mem_cons_self c rest
      rw [List.dropWhile_cons, if_neg (by simp [h c hc])]
  rw [h2, List.reverse_reverse]

theorem digitsOK_of_digits :
    ∀ {s : List Char}, (∀ c ∈ s, isDig c = true) → s ≠ [] →
      digitsOK s = true := by
  intro s
  induction s with
  | nil => intro _ h; exact absurd rfl h
  | cons c rest ih =>
    intro h _
    cases rest with
    | nil => exact h c (List.mem_cons_self c [])
    | cons d rest2 =>
      have hd : isDig d = true := h d (by simp)
      have hdu : d ≠ '_' := by
        intro he
        subst he
        exact absurd hd (by decide)
      unfold digitsOK
      rw [if_neg hdu]
      rw [h c (List.mem_cons_self c _), ih (fun x hx => h x (List.mem_cons_of_mem c hx)) (by simp)]
      rfl

theorem py_int_parse_natDec (n : Nat) : py_int_parse (natDec n) = some (n : Int) := by
  have hb := natDec_bounds n
  have hstrip : stripWS (natDec n) = natDec n :=
    stripWS_eq_self (fun c hc => isPySpace_false_of_digit (hb c hc).1 (hb c hc).2)
  have hdigits : ∀ c ∈ natDec n, isDig c = true := by
    intro c hc
    exact decide_eq_true ⟨(hb c hc).1, (hb c hc).2⟩
  have hfilter : (natDec n).filter (fun c => c ≠ '_') = natDec n := by
    rw [List.filter_eq_self]
    intro c hc
    have := hb c hc
    simp only [ne_eq, decide_eq_true_eq]
    intro he
    subst he
    exact absurd this.2 (by decide)
  cases hnd : natDec n with
  | nil => exact absurd hnd (natDec_ne_nil n)
  | cons c ds =>
    have hcmem : c ∈ natDec n := by rw [hnd]; exact List.mem_cons_self c ds
    have hcb := hb c hcmem
    have hstrip2 : stripWS (c :: ds) = c :: ds := by rw [← hnd]; exact hstrip
    simp only [py_int_parse, hstrip2]
    rw [if_neg (by intro he; subst he; exact absurd hcb.1 (by decide)),
      if_neg (by intro he; subst he; exact absurd hcb.1 (by decide))]
    unfold parseDigitsU
    rw [← hnd, if_pos (digitsOK_of_digits hdigits (natDec_ne_nil n)), hfilter,
      decVal_natDec]

/- ### The resolver (yaml-show.py resolve) -/

/-- The structured failures of the resolver, one per `sys.exit` site:
a non-integer token at a sequence, an out-of-range index, a missing
mapping key (with the up-to-10-key sample shown in the message), and
descent into a non-container (carrying Python's `type(cur).__name__`). -/
inductive ResolveError : Type where
  | notAnIndex (pathSoFar : List Char) (token : List Char)
  | indexOutOfRange (pathSoFar : List Char) (idx : Int) (len : Nat)
  | keyNotFound (pathSoFar : List Char) (token : List Char)
      (keysSample : List (List Char))
  | cannotDescend (pathSoFar : List Char) (typeName : List Char)
deriving DecidableEq

/-- Python `type(x).__name__` for scalar nodes. -/
def pyTypeName : Scalar → List Char
  | .str _ => "str".toList
  | .int _ => "int".toList
  | .bool _ => "bool".toList
  | .null => "NoneType".toList

/-- Python dict lookup (`tok in cur` / `cur[tok]`) on the association
list; keys of a Python dict are unique. -/
def dictLookup : List (List Char × Tree) → List Char → Option Tree
  | [], _ => none
  | (k0, v) :: rest, k => if k0 = k then some v else dictLookup rest k

/-- The `path_so_far` string of the resolver:
`"/" + "/".join(tokens[:depth-1])`, where the consumed prefix is tracked
explicitly. -/
def ptrStr (consumed : List (List Char)) : List Char :=
  '/' :: pyJoin '/' consumed

/-- yaml-show.py `resolve`, one loop step per token; `consumed` is the
prefix `tokens[:depth-1]` already walked, used for error paths. -/
def resolveGo :
    Tree → List (List Char) → List (List Char) → Except ResolveError Tree
  | cur, [], _ => .ok cur
  | cur, tok :: rest, consumed =>
    match cur with
    | .seq xs =>
      match py_int_parse tok with
      | none => .error (.notAnIndex (ptrStr consumed) tok)
      | some idx =>
        if idx < 0 ∨ (xs.length : Int) ≤ idx then
          .error (.indexOutOfRange (ptrStr consumed) idx xs.length)
        else
          resolveGo (xs.getD idx.toNat (.scalar .null)) rest (consumed ++ [tok])
    | .map kvs =>
      match dictLookup kvs tok with
      | none =>
        .error (.keyNotFound (ptrStr consumed) tok ((kvs.map Prod.fst).take 10))
      | some v => resolveGo v rest (consumed ++ [tok])
    | .scalar v => .error (.cannotDescend (ptrStr consumed) (pyTypeName v))

/-- Entry point of the resolver. -/
def resolve (obj : Tree) (tokens : List (List Char)) :
    Except ResolveError Tree :=
  resolveGo obj tokens []

theorem resolveGo_cons_seq (xs : List Tree) (tok : List Char)
    (rest consumed : List (List Char)) :
    resolveGo (.seq xs) (tok :: rest) consumed =
      match py_int_parse tok with
      | none => .error (.notAnIndex (ptrStr consumed) tok)
      | some idx =>
        if idx < 0 ∨ (xs.length : Int) ≤ idx then
          .error (.indexOutOfRange (ptrStr consumed) idx xs.length)
        else
          resolveGo (xs.getD idx.toNat (.scalar .null)) rest
            (consumed ++ [tok]) := rfl

theorem resolveGo_cons_map (kvs : List (List Char × Tree)) (tok : List Char)
    (rest consumed : List (List Char)) :
    resolveGo (.map kvs) (tok :: rest) consumed =
      match dictLookup kvs tok with
      | none =>
        .error (.keyNotFound (ptrStr consumed) tok ((kvs.map Prod.fst).take 10))
      | some v => resolveGo v rest (consumed ++ [tok]) := rfl

theorem resolveGo_cons_scalar (v : Scalar) (tok : List Char)
    (rest consumed : List (List Char)) :
    resolveGo (.scalar v) (tok :: rest) consumed =
      .error (.cannotDescend (ptrStr consumed) (pyTypeName v)) := rfl

theorem resolveGo_append (pre rest : List (List Char)) :
    ∀ (t : Tree) (consumed : List (List Char)),
      resolveGo t (pre ++ rest) consumed =
        match resolveGo t pre consumed with
        | .ok m => resolveGo m rest (consumed ++ pre)
        | .error e => .error e := by
  induction pre with
  | nil =>
    intro t consumed
    simp [resolveGo]
  | cons tok pre ih =>
    intro t consumed
    cases t with
    | scalar v => rfl
    | seq xs =>
      show resolveGo (.seq xs) (tok :: (pre ++ rest)) consumed = _
      cases hp : py_int_parse tok with
      | none => simp [resolveGo, hp]
      | some idx =>
        by_cases hb : idx < 0 ∨ (xs.length : Int) ≤ idx
        · simp [resolveGo, hp, hb]
        · simp only [resolveGo, hp, if_neg hb]
          rw [ih]
          simp [List.append_assoc]
    | map kvs =>
      show resolveGo (.map kvs) (tok :: (pre ++ rest)) consumed = _
      cases hl : dictLookup kvs tok with
      | none => simp [resolveGo, hl]
      | some v =>
        simp only [resolveGo, hl]
        rw [ih]
        simp [List.append_assoc]

/-- The concrete document `{"a": {"b": 1}}` of the spec's resolver
examples. -/
def exTree : Tree :=
  .map [("a".toList, .map [("b".toList, .scalar (.int 1))])]

theorem resolveGo_keyNotFound_sample :
    ∀ (toks : List (List Char)) (t : Tree) (consumed : List (List Char))
      (p tk : List Char) (sample : List (List Char)),
      resolveGo t toks consumed = .error (.keyNotFound p tk sample) →
      sample.length ≤ 10 := by
  intro toks
  induction toks with
  | nil =>
    intro t consumed p tk sample h
    exact Except.noConfusion h
  | cons tok rest ih =>
    intro t consumed p tk sample h
    cases t with
    | scalar v =>
      rw [resolveGo_cons_scalar] at h
      injection h with h2
      exact ResolveError.noConfusion h2
    | seq xs =>
      rw [resolveGo_cons_seq] at h
      cases hp : py_int_parse tok with
      | none =>
        simp only [hp] at h
        injection h with h2
        exact ResolveError.noConfusion h2
      | some idx =>
        simp only [hp] at h
        split at h
        · injection h with h2
          exact ResolveError.noConfusion h2
        · exact ih _ _ _ _ _ h
    | map kvs =>
      rw [resolveGo_cons_map] at h
      cases hl : dictLookup kvs tok with
      | none =>
        simp only [hl] at h
        injection h with h2
        injection h2 with hp htk hs
        rw [← hs]
        exact List.length_take_le 10 _
      | some v =>
        simp only [hl] at h
        exact ih _ _ _ _ _ h

/-- C5: a mapping without the current token fails with `KeyNotFound`
carrying the consumed path, the offending token, and a sample of at most
10 of the mapping's keys; a scalar with tokens remaining fails with
`CannotDescend` carrying the consumed path and the node's kind
(Python type name); on `{"a": {"b": 1}}`, `/a/c` gives `KeyNotFound` at
`/a` with token `c`, and `/a/b/x` gives `CannotDescend` at `/a/b`. -/
theorem c5_resolver_mapping_errors :
    (∀ (t : Tree) (pre post : List (List Char))
        (kvs : List (List Char × Tree)) (tok : List Char),
        resolve t pre = .ok (.map kvs) → dictLookup kvs tok = none →
        resolve t (pre ++ tok :: post) =
          .error (.keyNotFound (ptrStr pre) tok ((kvs.map Prod.fst).take 10)))
    ∧ (∀ (t : Tree) (pre post : List (List Char)) (v : Scalar)
        (tok : List Char),
        resolve t pre = .ok (.scalar v) →
        resolve t (pre ++ tok :: post) =
          .error (.cannotDescend (ptrStr pre) (pyTypeName v)))
    ∧ (∀ (t : Tree) (toks : List (List Char)) (p tk : List Char)
        (sample : List (List Char)),
        resolve t toks = .error (.keyNotFound p tk sample) →
        sample.length ≤ 10)
    ∧ resolve exTree ["a".toList, "c".toList] =
        .error (.keyNotFound "/a".toList "c".toList ["b".toList])
    ∧ resolve exTree ["a".toList, "b".toList, "x".toList] =
        .error (.cannotDescend "/a/b".toList "int".toList) := by
  refine ⟨?_, ?_, ?_, ?_, ?_⟩
  · intro t pre post kvs tok hok hlook
    unfold resolve at hok ⊢
    rw [resolveGo_append, hok]
    simp [resolveGo, hlook]
  · intro t pre post v tok hok
    unfold resolve at hok ⊢
    rw [resolveGo_append, hok]
    simp [resolveGo]
  · intro t toks p tk sample h
    exact resolveGo_keyNotFound_sample toks t [] p tk sample h
  · rfl
  · rfl

/-- Witness for C5: the first conjunct applied to the concrete document
`{"a": {"b": 1}}` with consumed prefix `/a` and missing key `c`. -/
theorem c5_resolver_mapping_errors_witness :
    resolve exTree (["a".toList] ++ "c".toList :: []) =
      .error (.keyNotFound (ptrStr ["a".toList]) "c".toList
        (([("b".toList, Tree.scalar (.int 1))].map Prod.fst).take 10)) :=
  c5_resolver_mapping_errors.1 exTree ["a".toList] []
    [("b".toList, Tree.scalar (.int 1))] "c".toList rfl rfl

/-- C6: at a sequence node the current token must parse as a base-10
integer, else the resolver fails with `NotAnIndex`; a parsed index that is
negative or not less than the length fails with `IndexOutOfRange`
carrying the index and the length; otherwise the resolver descends to the
element at that index. -/
theorem c6_resolver_sequence_errors :
    (∀ (t : Tree) (pre post : List (List Char)) (xs : List Tree)
        (tok : List Char),
        resolve t pre = .ok (.seq xs) → py_int_parse tok = none →
        resolve t (pre ++ tok :: post) =
          .error (.notAnIndex (ptrStr pre) tok))
    ∧ (∀ (t : Tree) (pre post : List (List Char)) (xs : List Tree)
        (tok : List Char) (i : Int),
        resolve t pre = .ok (.seq xs) → py_int_parse tok = some i →
        (i < 0 ∨ (xs.length : Int) ≤ i) →
        resolve t (pre ++ tok :: post) =
          .error (.indexOutOfRange (ptrStr pre) i xs.length))
    ∧ (∀ (t : Tree) (pre : List (List Char)) (xs : List Tree)
        (tok : List Char) (i : Int),
        resolve t pre = .ok (.seq xs) → py_int_parse tok = some i →
        0 ≤ i → i < (xs.length : Int) →
        resolve t (pre ++ [tok]) = .ok (xs.getD i.toNat (.scalar .null))) := by
  refine ⟨?_, ?_, ?_⟩
  · intro t pre post xs tok hok hp
    unfold resolve at hok ⊢
    rw [resolveGo_append, hok]
    simp [resolveGo, hp]
  · intro t pre post xs tok i hok hp hb
    unfold resolve at hok ⊢
    rw [resolveGo_append, hok]
    simp [resolveGo, hp, hb]
  · intro t pre xs tok i hok hp h0 hlen
    unfold resolve at hok ⊢
    rw [resolveGo_append, hok]
    show resolveGo (.seq xs) (tok :: []) ([] ++ pre) = _
    rw [resolveGo_cons_seq]
    simp only [hp]
    rw [if_neg (by omega)]
    rfl

/-- Witness for C6: on the sequence `[5]`, the non-numeric token "x"
yields `NotAnIndex` at the root path. -/
theorem c6_resolver_sequence_errors_witness :
    resolve (Tree.seq [Tree.scalar (.int 5)]) (([] : List (List Char)) ++ "x".toList :: []) =
      .error (.notAnIndex (ptrStr []) "x".toList) :=
  c6_resolver_sequence_errors.1 (Tree.seq [Tree.scalar (.int 5)]) [] []
    [Tree.scalar (.int 5)] "x".toList rfl rfl

/- ### The pointer round-trip (claim C2) -/

/-- `NodeAt t p sub`: the node `sub` sits at path `p` inside the tree
`t`; these are exactly the paths the search engine can produce. -/
inductive NodeAt : Tree → List Tok → Tree → Prop where
  | refl (t : Tree) : NodeAt t [] t
  | inMap {kvs : List (List Char × Tree)} {k : List Char} {v : Tree}
      {p : List Tok} {sub : Tree} :
      (k, v) ∈ kvs → NodeAt v p sub → NodeAt (.map kvs) (.str k :: p) sub
  | inSeq {xs : List Tree} {n : Nat} {p : List Tok} {sub : Tree}
      (h : n < xs.length) :
      NodeAt (xs.get ⟨n, h⟩) p sub → NodeAt (.seq xs) (.idx n :: p) sub

/-- Well-formedness inherited from the Python runtime: every mapping in
the tree has pairwise distinct keys (Python dicts cannot hold
duplicates). -/
inductive WF : Tree → Prop where
  | scalar (v : Scalar) : WF (.scalar v)
  | seq {xs : List Tree} : (∀ x ∈ xs, WF x) → WF (.seq xs)
  | map {kvs : List (List Char × Tree)} :
      (kvs.map Prod.fst).Nodup → (∀ kv ∈ kvs, WF kv.2) → WF (.map kvs)

/-- The decoded form of an encoded token: string tokens decode to
themselves, index tokens to their decimal digits (as a string). -/
def tokStr : Tok → List Char
  | .str s => s
  | .idx n => natDec n

theorem dictLookup_of_mem {kvs : List (List Char × Tree)} {k : List Char}
    {v : Tree} (hnd : (kvs.map Prod.fst).Nodup) (hmem : (k, v) ∈ kvs) :
    dictLookup kvs k = some v := by
  induction kvs with
  | nil => cases hmem
  | cons kv rest ih =>
    obtain ⟨k0, v0⟩ := kv
    rw [List.map_cons, List.nodup_cons] at hnd
    rcases List.mem_cons.1 hmem with heq | hmem2
    · injection heq with h1 h2
      unfold dictLookup
      rw [if_pos h1.symm, h2]
    · have hk : k0 ≠ k := by
        intro he
        exact hnd.1 (he ▸ List.mem_map.2 ⟨(k, v), hmem2, rfl⟩)
      unfold dictLookup
      rw [if_neg hk]
      exact ih hnd.2 hmem2

theorem natDec_no_slash {n : Nat} : '/' ∉ natDec n := by
  intro h
  exact absurd (natDec_bounds n '/' h).1 (by decide)

theorem natDec_no_tilde {n : Nat} : '~' ∉ natDec n := by
  intro h
  exact absurd (natDec_bounds n '~' h).2 (by decide)

theorem pyJoin_cons2 (sep : Char) (a b : List Char)
    (rest : List (List Char)) :
    pyJoin sep (a :: b :: rest) = a ++ sep :: pyJoin sep (b :: rest) := rfl

theorem pySplitAux_cons (sep c : Char) (rest acc : List Char) :
    pySplitAux sep (c :: rest) acc =
      if c = sep then acc.reverse :: pySplitAux sep rest []
      else pySplitAux sep rest (c :: acc) := rfl

theorem pySplitAux_no_sep {sep : Char} :
    ∀ (a s acc : List Char), sep ∉ a →
      pySplitAux sep (a ++ s) acc = pySplitAux sep s (a.reverse ++ acc) := by
  intro a
  induction a with
  | nil => intro s acc _; simp
  | cons c rest ih =>
    intro s acc h
    have hc : c ≠ sep := fun he => h (he ▸ List.mem_cons_self c rest)
    show pySplitAux sep (c :: (rest ++ s)) acc = _
    rw [pySplitAux_cons, if_neg hc,
      ih s (c :: acc) (fun hm => h (List.mem_cons_of_mem c hm))]
    simp

theorem pySplit_pyJoin {sep : Char} :
    ∀ parts : List (List Char), parts ≠ [] → (∀ a ∈ parts, sep ∉ a) →
      pySplit sep (pyJoin sep parts) = parts := by
  intro parts
  induction parts with
  | nil => intro h _; exact absurd rfl h
  | cons a rest ih =>
    intro _ hmem
    cases rest with
    | nil =>
      show pySplitAux sep (pyJoin sep [a]) [] = [a]
      have : pyJoin sep [a] = a ++ [] := by simp [pyJoin]
      rw [this, pySplitAux_no_sep a [] [] (hmem a (List.mem_cons_self a []))]
      simp [pySplitAux]
    | cons b rest2 =>
      show pySplitAux sep (pyJoin sep (a :: b :: rest2)) [] = _
      rw [pyJoin_cons2,
        pySplitAux_no_sep a _ [] (hmem a (List.mem_cons_self a _)),
        pySplitAux_cons, if_pos rfl]
      simp only [List.append_nil, List.reverse_reverse]
      congr 1
      exact ih (by simp) (fun x hx => hmem x (List.mem_cons_of_mem a hx))

theorem pyJoin_parts_ne_nil {sep : Char} {parts : List (List Char)}
    (hne : parts ≠ []) (hparts : ∀ a ∈ parts, a ≠ []) :
    pyJoin sep parts ≠ [] := by
  cases parts with
  | nil => exact absurd rfl hne
  | cons a rest =>
    cases rest with
    | nil => exact hparts a (List.mem_cons_self a [])
    | cons b rest2 =>
      rw [pyJoin_cons2]
      simp

/-- Encoding then decoding a search-produced path: provided every string
token on the path is nonempty, the parse succeeds and returns exactly
the decoded tokens. -/
theorem parse_to_path (p : List Tok)
    (hne : ∀ s, Tok.str s ∈ p → s ≠ []) :
    parse_pointer (to_path_pointer p) = some (p.map tokStr) := by
  cases p with
  | nil => decide
  | cons t rest =>
    have hparts : ∀ part ∈ (t :: rest).map tokEnc, part ≠ [] ∧ '/' ∉ part := by
      intro part hpart
      rcases List.mem_map.1 hpart with ⟨tk, htk, henc⟩
      cases tk with
      | str s =>
        have hs : s ≠ [] := hne s htk
        exact henc ▸ ⟨escape_ne_nil hs, escape_no_slash s⟩
      | idx n =>
        exact henc ▸ ⟨natDec_ne_nil n, natDec_no_slash⟩
    have hraw : pyJoin '/' ((t :: rest).map tokEnc) ≠ [] :=
      pyJoin_parts_ne_nil (by simp) (fun a ha => (hparts a ha).1)
    unfold to_path_pointer parse_pointer
    rw [if_neg]
    · show some (((pySplit '/' (pyJoin '/' ((t :: rest).map tokEnc))).filter
        (fun p => p ≠ [])).map unescape_token) = _
      rw [pySplit_pyJoin ((t :: rest).map tokEnc) (by simp)
        (fun a ha => (hparts a ha).2)]
      rw [List.filter_eq_self.2
        (fun a ha => by simpa using (hparts a ha).1)]
      rw [List.map_map]
      congr 1
      apply List.map_congr_left
      intro tk htk
      cases tk with
      | str s =>
        show unescape_token (json_pointer_escape s) = s
        exact unescape_escape s
      | idx n =>
        show unescape_token (natDec n) = natDec n
        exact unescape_not_mem_tilde natDec_no_tilde
    · push_neg
      constructor
      · simp
      · intro hcontra
        have : pyJoin '/' ((t :: rest).map tokEnc) = [] := by
          have := congrArg List.tail hcontra
          simpa using this
        exact hraw this

/-- Resolving the decoded tokens of a path walks back to the node,
provided mappings have unique keys. -/
theorem resolve_nodeAt {t : Tree} {p : List Tok} {sub : Tree}
    (hnode : NodeAt t p sub) :
    WF t → ∀ consumed : List (List Char),
      resolveGo t (p.map tokStr) consumed = .ok sub := by
  induction hnode with
  | refl t => intro _ _; rfl
  | inMap hmem hn ih =>
    intro hwf consumed
    cases hwf with
    | map hnd hall =>
      rename_i kvs k v p sub
      show resolveGo (.map kvs) (k :: p.map tokStr) consumed = .ok sub
      rw [resolveGo_cons_map]
      simp only [dictLookup_of_mem hnd hmem]
      exact ih (hall (k, v) hmem) _
  | inSeq hlt hn ih =>
    intro hwf consumed
    cases hwf with
    | seq hall =>
      rename_i xs n p sub
      show resolveGo (.seq xs) (natDec n :: p.map tokStr) consumed = .ok sub
      rw [resolveGo_cons_seq]
      simp only [py_int_parse_natDec n]
      rw [if_neg (by omega)]
      have hgd : xs.getD (Int.toNat (n : Int)) (.scalar .null) =
          xs.get ⟨n, hlt⟩ := by
        rw [Int.toNat_ofNat]
        rw [List.getD_eq_getElem?_getD, List.getElem?_eq_getElem hlt]
        simp
      rw [hgd]
      exact ih (hall _ (List.get_mem xs n hlt)) _

/-- The document `{"": 1}` whose only key is the empty string. -/
def t0 : Tree := .map [([], Tree.scalar (.int 1))]

/-- C2 counterexample: in `{"": 1}` the node `1` sits at path `[""]`,
but its encoded pointer is "/", which decodes to the empty token list
and therefore resolves to the root mapping, not to `1`. -/
theorem c2_roundtrip_counterexample :
    NodeAt t0 [Tok.str []] (Tree.scalar (.int 1))
    ∧ parse_pointer (to_path_pointer [Tok.str []]) = some []
    ∧ resolve t0 [] = .ok t0
    ∧ t0 ≠ Tree.scalar (.int 1) := by
  refine ⟨NodeAt.inMap (by simp) (NodeAt.refl _), by decide, rfl, ?_⟩
  intro h
  exact Tree.noConfusion h

/-- C2 (amended): for every tree whose mappings have unique keys and
every node whose path has no empty-string key, encoding the path to
pointer notation, decoding it back, and resolving the decoded tokens
against the same tree returns exactly the originating node. -/
theorem c2_pointer_roundtrip_amended :
    ∀ (t : Tree) (p : List Tok) (sub : Tree),
      WF t → NodeAt t p sub → (∀ s, Tok.str s ∈ p → s ≠ []) →
      parse_pointer (to_path_pointer p) = some (p.map tokStr)
      ∧ resolve t (p.map tokStr) = .ok sub := by
  intro t p sub hwf hnode hne
  exact ⟨parse_to_path p hne, resolve_nodeAt hnode hwf []⟩

/-- The concrete document for the C2 witness:
`{"a": [1, {"k/x": null}]}`. -/
def tW : Tree :=
  .map [("a".toList,
    .seq [.scalar (.int 1), .map [("k/x".toList, .scalar .null)]])]

/-- The witness path `/a/1/k~1x` down to the null leaf. -/
def pW : List Tok := [.str "a".toList, .idx 1, .str "k/x".toList]

/-- Witness for C2: the amended round-trip applied to a concrete tree
with a nested sequence and a key containing '/'. -/
theorem c2_pointer_roundtrip_amended_witness :
    parse_pointer (to_path_pointer pW) = some (pW.map tokStr)
    ∧ resolve tW (pW.map tokStr) = .ok (.scalar .null) :=
  c2_pointer_roundtrip_amended tW pW (.scalar .null)
    (by
      refine WF.map (by simp) ?_
      intro kv hkv
      simp only [List.mem_singleton] at hkv
      subst hkv
      refine WF.seq ?_
      intro x hx
      simp only [List.mem_cons, List.mem_singleton] at hx
      rcases hx with hx | hx | hx
      · subst hx; exact WF.scalar _
      · subst hx
        refine WF.map (by simp) ?_
        intro kv2 hkv2
        simp only [List.mem_singleton] at hkv2
        subst hkv2
        exact WF.scalar _
      · cases hx)
    (by
      unfold tW pW
      refine NodeAt.inMap
        (show ("a".toList, Tree.seq [Tree.scalar (.int 1),
          Tree.map [("k/x".toList, Tree.scalar .null)]]) ∈ _ from by simp) ?_
      refine NodeAt.inSeq (show 1 < 2 from by norm_num) ?_
      show NodeAt (Tree.map [("k/x".toList, Tree.scalar .null)])
        [Tok.str "k/x".toList] (Tree.scalar .null)
      refine NodeAt.inMap
        (show ("k/x".toList, Tree.scalar Scalar.null) ∈ _ from by simp) ?_
      exact NodeAt.refl _)
    (by
      intro s hs
      simp only [pW, List.mem_cons] at hs
      rcases hs with hs | hs | hs | hs
      · injection hs with h; subst h; decide
      · exact Tok.noConfusion hs
      · injection hs with h; subst h; decide
      · cases hs)

/-- C8: resolving an empty token list returns the tree itself without
inspecting its kind, and more generally whenever the token list is
exhausted the current node is the result. -/
theorem c8_resolve_empty_tokens :
    (∀ t : Tree, resolve t [] = .ok t)
    ∧ (∀ (cur : Tree) (consumed : List (List Char)),
        resolveGo cur [] consumed = .ok cur) :=
  ⟨fun _ => rfl, fun _ _ => rfl⟩

/- ### The match highlighter (yaml-grep.py colorize) -/

/-- A compiled regex, modelled by its observable behaviour: `test` is
the truthiness of `rx.search(s)`, `finditer` the list of match spans
`(start, end)` produced by `rx.finditer(s)` (non-overlapping, scanned
left to right). -/
structure PyRegex : Type where
  test : List Char → Bool
  finditer : List Char → List (Nat × Nat)

/-- Does the literal pattern occur at the start of the string? -/
def litAt : List Char → List Char → Bool
  | [], _ => true
  | _ :: _, [] => false
  | p :: ps, c :: cs => p = c && litAt ps cs

/-- Scanner behind the `finditer` of a literal (metacharacter-free,
nonempty) pattern: emit a span at each match and resume after it,
otherwise advance one character. -/
def litFindAux (pat : List Char) : List Char → Nat → Nat → List (Nat × Nat)
  | [], _, _ => []
  | c :: rest, pos, skip =>
    if skip > 0 then litFindAux pat rest (pos + 1) (skip - 1)
    else if litAt pat (c :: rest) then
      (pos, pos + pat.length) :: litFindAux pat rest (pos + 1) (pat.length - 1)
    else litFindAux pat rest (pos + 1) 0

/-- `re.compile` of a literal, nonempty pattern. -/
def litRegex (pat : List Char) : PyRegex where
  test := fun s => !(litFindAux pat s 0 0).isEmpty
  finditer := fun s => litFindAux pat s 0 0

/-- The `ranges` list of `colorize`: all spans of all patterns, in
pattern-then-position order. -/
def spanRanges (s : List Char) (regexes : List PyRegex) : List (Nat × Nat) :=
  (regexes.map (fun rx => rx.finditer s)).flatten

/-- Python tuple comparison `(a1, a2) <= (b1, b2)` as used by
`ranges.sort()`: lexicographic. -/
def lexLe (a b : Nat × Nat) : Bool :=
  decide (a.1 < b.1 ∨ (a.1 = b.1 ∧ a.2 ≤ b.2))

/-- Stable insertion into a sorted prefix (`list.sort` is stable). -/
def insertSp (a : Nat × Nat) : List (Nat × Nat) → List (Nat × Nat)
  | [] => [a]
  | b :: bs => if lexLe b a then b :: insertSp a bs else a :: b :: bs

/-- Python `ranges.sort()`: a stable sort by lexicographic tuple order,
modelled as stable insertion sort. -/
def sortSpans (l : List (Nat × Nat)) : List (Nat × Nat) :=
  l.foldl (fun acc a => insertSp a acc) []

/-- The merge loop of `colorize`: starting from the current span, absorb
the next sorted span whenever it overlaps or touches
(`s0 <= cur_e`), else emit the current span and restart from the next. -/
def mergeSpans : Nat × Nat → List (Nat × Nat) → List (Nat × Nat)
  | cur, [] => [cur]
  | cur, (s0, e0) :: rest =>
    if s0 ≤ cur.2 then mergeSpans (cur.1, max cur.2 e0) rest
    else cur :: mergeSpans (s0, e0) rest

/-- The merged spans of `colorize` (empty when there are no matches). -/
def mergedSpans (s : List Char) (regexes : List PyRegex) :
    List (Nat × Nat) :=
  match sortSpans (spanRanges s regexes) with
  | [] => []
  | r :: rest => mergeSpans r rest

/-- ANSI bold-on marker. -/
def escOn : List Char := "\x1b[1m".toList

/-- ANSI bold-off marker. -/
def escOff : List Char := "\x1b[0m".toList

/-- The output loop of `colorize`: unmatched text is copied verbatim,
each merged span is wrapped in the ANSI markers. -/
def renderSpans (s : List Char) : Nat → List (Nat × Nat) → List Char
  | last, [] => s.drop last
  | last, (s0, e0) :: rest =>
    (s.drop last).take (s0 - last) ++ escOn ++ (s.drop s0).take (e0 - s0)
      ++ escOff ++ renderSpans s e0 rest

/-- yaml-grep.py `colorize`. -/
def colorize (s : List Char) (regexes : List PyRegex) (enabled : Bool) :
    List Char :=
  if !enabled then s
  else if spanRanges s regexes = [] then s
  else renderSpans s 0 (mergedSpans s regexes)

/-- A position is covered by a span list when it lies in one of the
half-open spans. -/
def covers (l : List (Nat × Nat)) (pos : Nat) : Prop :=
  ∃ r ∈ l, r.1 ≤ pos ∧ pos < r.2

/-- Sorted-by-start, the invariant the merge loop needs. -/
def startLe (a b : Nat × Nat) : Prop := a.1 ≤ b.1

theorem covers_cons {r : Nat × Nat} {l : List (Nat × Nat)} {pos : Nat} :
    covers (r :: l) pos ↔ (r.1 ≤ pos ∧ pos < r.2) ∨ covers l pos := by
  simp [covers]

theorem insertSp_perm (a : Nat × Nat) :
    ∀ l : List (Nat × Nat), List.Perm (insertSp a l) (a :: l) := by
  intro l
  induction l with
  | nil => exact List.Perm.refl _
  | cons b bs ih =>
    unfold insertSp
    split
    · exact (ih.cons b).trans (List.Perm.swap a b bs)
    · exact List.Perm.refl _

theorem sortSpans_perm (l : List (Nat × Nat)) :
    List.Perm (sortSpans l) l := by
  have general : ∀ (l acc : List (Nat × Nat)),
      List.Perm (l.foldl (fun acc a => insertSp a acc) acc) (acc ++ l) := by
    intro l
    induction l with
    | nil => intro acc; simp
    | cons a as ih =>
      intro acc
      have h1 : List.Perm (as.foldl (fun acc a => insertSp a acc)
          (insertSp a acc)) (insertSp a acc ++ as) := ih (insertSp a acc)
      have h2 : List.Perm (insertSp a acc ++ as) ((a :: acc) ++ as) :=
        (insertSp_perm a acc).append_right as
      have h3 : List.Perm ((a :: acc) ++ as) (acc ++ a :: as) :=
        List.perm_middle.symm
      exact h1.trans (h2.trans h3)
  simpa using general l []

theorem insertSp_pairwise {a : Nat × Nat} :
    ∀ {l : List (Nat × Nat)}, List.Pairwise startLe l →
      List.Pairwise startLe (insertSp a l) := by
  intro l
  induction l with
  | nil => intro _; simp [insertSp, List.pairwise_singleton]
  | cons b bs ih =>
    intro h
    rcases List.pairwise_cons.1 h with ⟨hb, hbs⟩
    unfold insertSp
    split
    · rename_i hle
      simp only [lexLe, decide_eq_true_eq] at hle
      have hba : b.1 ≤ a.1 := by omega
      refine List.pairwise_cons.2 ⟨?_, ih hbs⟩
      intro x hx
      rcases List.mem_cons.1 ((insertSp_perm a bs).mem_iff.1 hx) with hxa | hxbs
      · exact hxa ▸ hba
      · exact hb x hxbs
    · rename_i hnle
      simp only [lexLe, decide_eq_true_eq] at hnle
      have hab : a.1 ≤ b.1 := by omega
      refine List.pairwise_cons.2 ⟨?_, h⟩
      intro x hx
      rcases List.mem_cons.1 hx with hxb | hxbs
      · exact hxb ▸ hab
      · exact le_trans hab (hb x hxbs)

theorem sortSpans_pairwise (l : List (Nat × Nat)) :
    List.Pairwise startLe (sortSpans l) := by
  have general : ∀ (l acc : List (Nat × Nat)),
      List.Pairwise startLe acc →
      List.Pairwise startLe (l.foldl (fun acc a => insertSp a acc) acc) := by
    intro l
    induction l with
    | nil => intro acc h; exact h
    | cons a as ih => intro acc h; exact ih _ (insertSp_pairwise h)
  exact general l [] List.Pairwise.nil

theorem mergeSpans_cons (cur : Nat × Nat) (s0 e0 : Nat)
    (rest : List (Nat × Nat)) :
    mergeSpans cur ((s0, e0) :: rest) =
      if s0 ≤ cur.2 then mergeSpans (cur.1, max cur.2 e0) rest
      else cur :: mergeSpans (s0, e0) rest := rfl

theorem mergeSpans_head :
    ∀ (l : List (Nat × Nat)) (cur : Nat × Nat),
      ∃ e rest2, mergeSpans cur l = (cur.1, e) :: rest2 ∧ cur.2 ≤ e := by
  intro l
  induction l with
  | nil => intro cur; exact ⟨cur.2, [], rfl, le_refl _⟩
  | cons hd rest ih =>
    obtain ⟨s0, e0⟩ := hd
    intro cur
    rw [mergeSpans_cons]
    split
    · obtain ⟨e, r2, heq, hle⟩ := ih (cur.1, max cur.2 e0)
      exact ⟨e, r2, heq, le_trans (Nat.le_max_left _ _) hle⟩
    · exact ⟨cur.2, mergeSpans (s0, e0) rest, rfl, le_refl _⟩

theorem mergeSpans_chain :
    ∀ (l : List (Nat × Nat)) (cur : Nat × Nat),
      List.Chain' (fun a b : Nat × Nat => a.2 < b.1) (mergeSpans cur l) := by
  intro l
  induction l with
  | nil => intro cur; simp [mergeSpans]
  | cons hd rest ih =>
    obtain ⟨s0, e0⟩ := hd
    intro cur
    rw [mergeSpans_cons]
    split
    · exact ih (cur.1, max cur.2 e0)
    · rename_i hgt
      obtain ⟨e, r2, heq, _⟩ := mergeSpans_head rest (s0, e0)
      rw [heq]
      refine List.Chain'.cons ?_ (heq ▸ ih (s0, e0))
      show cur.2 < s0
      omega

theorem mergeSpans_cover :
    ∀ (l : List (Nat × Nat)) (cur : Nat × Nat),
      List.Pairwise startLe (cur :: l) →
      ∀ pos : Nat, covers (mergeSpans cur l) pos ↔ covers (cur :: l) pos := by
  intro l
  induction l with
  | nil => intro cur _ pos; exact Iff.refl _
  | cons hd rest ih =>
    obtain ⟨s0, e0⟩ := hd
    intro cur hpw pos
    rcases List.pairwise_cons.1 hpw with ⟨hcur, htail⟩
    rw [mergeSpans_cons]
    split
    · rename_i hle
      have hcs : cur.1 ≤ s0 := hcur (s0, e0) (List.mem_cons_self _ _)
      have hnext : List.Pairwise startLe ((cur.1, max cur.2 e0) :: rest) := by
        refine List.pairwise_cons.2 ⟨?_, (List.pairwise_cons.1 htail).2⟩
        intro x hx
        exact hcur x (List.mem_cons_of_mem _ hx)
      rw [ih (cur.1, max cur.2 e0) hnext pos]
      rw [covers_cons, covers_cons, covers_cons]
      by_cases hC : covers rest pos
      · simp [hC]
      · simp only [hC, or_false]
        show cur.1 ≤ pos ∧ pos < max cur.2 e0 ↔
          (cur.1 ≤ pos ∧ pos < cur.2) ∨ (s0 ≤ pos ∧ pos < e0)
        omega
    · rename_i hgt
      rw [covers_cons, covers_cons,
        ih (s0, e0) htail pos, covers_cons]

theorem mergedSpans_cover (s : List Char) (regexes : List PyRegex)
    (pos : Nat) :
    covers (mergedSpans s regexes) pos ↔ covers (spanRanges s regexes) pos := by
  have hperm := sortSpans_perm (spanRanges s regexes)
  have hmem : ∀ pos, covers (sortSpans (spanRanges s regexes)) pos ↔
      covers (spanRanges s regexes) pos := by
    intro pos
    unfold covers
    constructor
    · rintro ⟨r, hr, h⟩; exact ⟨r, hperm.mem_iff.1 hr, h⟩
    · rintro ⟨r, hr, h⟩; exact ⟨r, hperm.mem_iff.2 hr, h⟩
  unfold mergedSpans
  split
  · rename_i heq
    rw [← hmem, heq]
  · rename_i r rest heq
    rw [← hmem, heq]
    exact mergeSpans_cover rest r (heq ▸ sortSpans_pairwise _) pos

/-- C7: with highlighting enabled, `colorize` collects all spans of all
patterns, sorts and merges any overlapping or touching spans into
maximal non-overlapping spans (consecutive merged spans are separated,
and a position is inside a merged span exactly when some pattern matched
it), wraps each merged span in the ANSI emphasis markers leaving other
text untouched, and returns the input unchanged when there are no
matches; on "aaa" with patterns "a" and "aa" exactly one merged span
[0,3) results. -/
theorem c7_highlight_merge :
    (∀ (s : List Char) (regexes : List PyRegex),
        spanRanges s regexes = [] → colorize s regexes true = s)
    ∧ (∀ (s : List Char) (regexes : List PyRegex),
        List.Chain' (fun a b : Nat × Nat => a.2 < b.1) (mergedSpans s regexes))
    ∧ (∀ (s : List Char) (regexes : List PyRegex) (pos : Nat),
        covers (mergedSpans s regexes) pos ↔ covers (spanRanges s regexes) pos)
    ∧ mergedSpans "aaa".toList [litRegex "a".toList, litRegex "aa".toList]
        = [(0, 3)]
    ∧ colorize "aaa".toList [litRegex "a".toList, litRegex "aa".toList] true
        = escOn ++ "aaa".toList ++ escOff := by
  refine ⟨?_, ?_, mergedSpans_cover, by decide, by decide⟩
  · intro s regexes h
    simp [colorize, h]
  · intro s regexes
    unfold mergedSpans
    split
    · exact List.chain'_nil
    · exact mergeSpans_chain _ _

/-- Witness for C7: with no patterns there are no spans, and the input
comes back unchanged. -/
theorem c7_highlight_merge_witness :
    colorize "ab".toList [] true = "ab".toList :=
  c7_highlight_merge.1 "ab".toList [] rfl

/- ### The search engine (yaml-grep.py search) -/

/-- yaml-grep.py `stringify`: strings verbatim, other scalars in their
JSON textual form (`json.dumps`). -/
def stringify : Scalar → List Char
  | .str s => s
  | .int n => intDec n
  | .bool b => if b then "true".toList else "false".toList
  | .null => "null".toList

/-- Lower-case hexadecimal digit. -/
def hexDigit (n : Nat) : Char :=
  if n < 10 then Char.ofNat (48 + n) else Char.ofNat (87 + n)

/-- Four-digit hexadecimal rendering, as in JSON \u escapes. -/
def hex4 (n : Nat) : List Char :=
  [hexDigit (n / 4096 % 16), hexDigit (n / 256 % 16), hexDigit (n / 16 % 16),
    hexDigit (n % 16)]

/-- One character of `json.dumps` on a string (default
`ensure_ascii=True`): quote and backslash are escaped, common control
characters use short escapes, other control and all non-ASCII characters
become \u escapes (surrogate pairs above the BMP). -/
def jsonEscChar (c : Char) : List Char :=
  if c = '"' then ['\\', '"']
  else if c = '\\' then ['\\', '\\']
  else if c = '\n' then ['\\', 'n']
  else if c = '\r' then ['\\', 'r']
  else if c = '\t' then ['\\', 't']
  else if c.toNat = 8 then ['\\', 'b']
  else if c.toNat = 12 then ['\\', 'f']
  else if c.toNat < 32 ∨ 126 < c.toNat then
    if c.toNat < 65536 then '\\' :: 'u' :: hex4 c.toNat
    else
      ('\\' :: 'u' :: hex4 (55296 + (c.toNat - 65536) / 1024))
        ++ ('\\' :: 'u' :: hex4 (56320 + (c.toNat - 65536) % 1024))
  else [c]

/-- `json.dumps` of a string: the quoted, escaped form used by
`to_path_dot` for non-identifier keys. -/
def jsonQuote (s : List Char) : List Char :=
  '"' :: chMap jsonEscChar s ++ ['"']

/-- First character of the identifier pattern `[A-Za-z_]`. -/
def isAlphaU (c : Char) : Bool :=
  decide ((65 ≤ c.toNat ∧ c.toNat ≤ 90) ∨ (97 ≤ c.toNat ∧ c.toNat ≤ 122)
    ∨ c = '_')

/-- Later characters of the identifier pattern `[A-Za-z0-9_]`. -/
def isAlnumU (c : Char) : Bool :=
  isAlphaU c || decide (48 ≤ c.toNat ∧ c.toNat ≤ 57)

/-- `re.fullmatch(r"[A-Za-z_][A-Za-z0-9_]*", t)` as a Boolean. -/
def isIdent : List Char → Bool
  | [] => false
  | c :: rest => isAlphaU c && rest.all isAlnumU

/-- yaml-grep.py `to_path_dot`: "root" followed by `.key` for
identifier-shaped keys, `["key"]` (JSON-quoted) otherwise, and
`[index]` for sequence indices. -/
def to_path_dot (tokens : List Tok) : List Char :=
  tokens.foldl
    (fun out t =>
      match t with
      | .idx n => out ++ '[' :: (natDec n ++ [']'])
      | .str s =>
        if isIdent s then out ++ '.' :: s
        else out ++ '[' :: (jsonQuote s ++ [']']))
    "root".toList

/-- Output path format, the `--path-format` flag. -/
inductive PathFmt : Type where
  | pointer
  | dot
deriving DecidableEq

/-- `any(rx.search(s) for rx in regexes)`. -/
def anyMatch (regexes : List PyRegex) (s : List Char) : Bool :=
  regexes.any (fun rx => rx.test s)

/-- One tab-separated report line `path\t(KIND)\ttext`. -/
def mkLine (path kind shown : List Char) : List Char :=
  path ++ '\t' :: (kind ++ '\t' :: shown)

mutual

/-- yaml-grep.py `search`: pre-order depth-first traversal collecting
match lines into `out`; returns the final `out` (the Python version
mutates the list in place and returns `None`).  The cap is re-checked
at function entry and after every emission. -/
def search (obj : Tree) (tokens : List Tok) (regexes : List PyRegex)
    (matchKeys matchValues : Bool) (pathFmt : PathFmt) (color : Bool)
    (maxMatches : Nat) (out : List (List Char)) : List (List Char) :=
  if maxMatches ≠ 0 ∧ out.length ≥ maxMatches then out
  else
    match obj with
    | .map kvs =>
      searchDict kvs tokens regexes matchKeys matchValues pathFmt color
        maxMatches out
    | .seq xs =>
      searchList xs 0 tokens regexes matchKeys matchValues pathFmt color
        maxMatches out
    | .scalar v =>
      if matchValues then
        if anyMatch regexes (stringify v) then
          out ++ [mkLine (if pathFmt = .pointer then [] else "root".toList)
            "(VAL)".toList (colorize (stringify v) regexes color)]
        else out
      else out
termination_by structural obj

/-- The `for k, v in obj.items()` loop of `search`: test (and possibly
emit, with a cap check after the emission) the key, then the scalar
value, then recurse into container children, then continue with the
remaining entries.  The value-and-recursion phase appears once per
outcome of the key phase, mirroring the straight-line Python body. -/
def searchDict (kvs : List (List Char × Tree)) (tokens : List Tok)
    (regexes : List PyRegex) (matchKeys matchValues : Bool)
    (pathFmt : PathFmt) (color : Bool) (maxMatches : Nat)
    (out : List (List Char)) : List (List Char) :=
  match kvs with
  | [] => out
  | (k, v) :: rest =>
    if matchKeys && anyMatch regexes k then
      let out1 := out ++ [mkLine
        (if pathFmt = .pointer then to_path_pointer (tokens ++ [Tok.str k])
         else to_path_dot (tokens ++ [Tok.str k]))
        "(KEY)".toList (colorize k regexes color)]
      if maxMatches ≠ 0 ∧ out1.length ≥ maxMatches then out1
      else
        match v with
        | .scalar sv =>
          if matchValues && anyMatch regexes (stringify sv) then
            let out2 := out1 ++ [mkLine
              (if pathFmt = .pointer then
                to_path_pointer (tokens ++ [Tok.str k])
               else to_path_dot (tokens ++ [Tok.str k]))
              "(VAL)".toList (colorize (stringify sv) regexes color)]
            if maxMatches ≠ 0 ∧ out2.length ≥ maxMatches then out2
            else
              searchDict rest tokens regexes matchKeys matchValues pathFmt
                color maxMatches out2
          else
            searchDict rest tokens regexes matchKeys matchValues pathFmt
              color maxMatches out1
        | _ =>
          searchDict rest tokens regexes matchKeys matchValues pathFmt color
            maxMatches
            (search v (tokens ++ [Tok.str k]) regexes matchKeys matchValues
              pathFmt color maxMatches out1)
    else
      match v with
      | .scalar sv =>
        if matchValues && anyMatch regexes (stringify sv) then
          let out2 := out ++ [mkLine
            (if pathFmt = .pointer then to_path_pointer (tokens ++ [Tok.str k])
             else to_path_dot (tokens ++ [Tok.str k]))
            "(VAL)".toList (colorize (stringify sv) regexes color)]
          if maxMatches ≠ 0 ∧ out2.length ≥ maxMatches then out2
          else
            searchDict rest tokens regexes matchKeys matchValues pathFmt
              color maxMatches out2
        else
          searchDict rest tokens regexes matchKeys matchValues pathFmt color
            maxMatches out
      | _ =>
        searchDict rest tokens regexes matchKeys matchValues pathFmt color
          maxMatches
          (search v (tokens ++ [Tok.str k]) regexes matchKeys matchValues
            pathFmt color maxMatches out)
termination_by structural kvs

/-- The `for idx, v in enumerate(obj)` loop of `search`: test (and
possibly emit, with a cap check) scalar elements, recurse into container
elements, then continue with the remaining elements. -/
def searchList (xs : List Tree) (idx : Nat) (tokens : List Tok)
    (regexes : List PyRegex) (matchKeys matchValues : Bool)
    (pathFmt : PathFmt) (color : Bool) (maxMatches : Nat)
    (out : List (List Char)) : List (List Char) :=
  match xs with
  | [] => out
  | v :: rest =>
    match v with
    | .scalar sv =>
      if matchValues && anyMatch regexes (stringify sv) then
        let out1 := out ++ [mkLine
          (if pathFmt = .pointer then to_path_pointer (tokens ++ [Tok.idx idx])
           else to_path_dot (tokens ++ [Tok.idx idx]))
          "(VAL)".toList (colorize (stringify sv) regexes color)]
        if maxMatches ≠ 0 ∧ out1.length ≥ maxMatches then out1
        else
          searchList rest (idx + 1) tokens regexes matchKeys matchValues
            pathFmt color maxMatches out1
      else
        searchList rest (idx + 1) tokens regexes matchKeys matchValues pathFmt
          color maxMatches out
    | _ =>
      searchList rest (idx + 1) tokens regexes matchKeys matchValues pathFmt
        color maxMatches
        (search v (tokens ++ [Tok.idx idx]) regexes matchKeys matchValues
          pathFmt color maxMatches out)
termination_by structural xs

end

/-- The C1 failing document `{"a": {"b": 1}, "c": 2}`. -/
def cexTree : Tree :=
  .map [("a".toList, .map [("b".toList, .scalar (.int 1))]),
    ("c".toList, .scalar (.int 2))]

/-- The C1 patterns: the literals "b" and "c" (both match keys of the
failing document). -/
def cexRegexes : List PyRegex := [litRegex "b".toList, litRegex "c".toList]

/-- C1 (code bug): with `maxMatches = 1`, a keys-only search of
`{"a": {"b": 1}, "c": 2}` for the patterns "b" and "c" emits TWO
records, not one: the cap stops the traversal that emitted the record,
but after the recursive call returns, the parent loop tests its next
sibling without re-checking the cap and emits again.  This contradicts
the claim (and the tool's own help text, "Stop after N matches"). -/
theorem c1_match_cap_code_bug :
    search cexTree [] cexRegexes true false .pointer false 1 [] =
      ["/a/b\t(KEY)\tb".toList, "/c\t(KEY)\tc".toList]
    ∧ ("/a/b\t(KEY)\tb".toList ≠ "/c\t(KEY)\tc".toList)
    ∧ (["/a/b\t(KEY)\tb".toList, "/c\t(KEY)\tc".toList] :
        List (List Char)).length = 2 := by
  refine ⟨by decide, by decide, rfl⟩

/-- C9: the search is deterministic: two invocations with identical
tree, identical compiled pattern list, and identical flags (key/value
selection, path format, color, match cap) produce identical reports,
record for record. -/
theorem c9_search_deterministic :
    ∀ (obj obj2 : Tree) (regexes regexes2 : List PyRegex)
      (mk1 mk2 mv1 mv2 : Bool) (pf1 pf2 : PathFmt) (col1 col2 : Bool)
      (mm1 mm2 : Nat),
      obj = obj2 → regexes = regexes2 → mk1 = mk2 → mv1 = mv2 → pf1 = pf2 →
      col1 = col2 → mm1 = mm2 →
      search obj [] regexes mk1 mv1 pf1 col1 mm1 [] =
        search obj2 [] regexes2 mk2 mv2 pf2 col2 mm2 [] := by
  intro obj obj2 regexes regexes2 mk1 mk2 mv1 mv2 pf1 pf2 col1 col2 mm1 mm2
    h1 h2 h3 h4 h5 h6 h7
  subst h1
  subst h2
  subst h3
  subst h4
  subst h5
  subst h6
  subst h7
  rfl

/-- Witness for C9: two identical concrete invocations coincide. -/
theorem c9_search_deterministic_witness :
    search (Tree.scalar (.int 1)) [] [] true true .pointer false 0 [] =
      search (Tree.scalar (.int 1)) [] [] true true .pointer false 0 [] :=
  c9_search_deterministic (Tree.scalar (.int 1)) (Tree.scalar (.int 1)) [] []
    true true true true .pointer .pointer false false 0 0
    rfl rfl rfl rfl rfl rfl rfl

end YamlGrep
